import Mathlib

/-!
Shallow embedding of the custom_dst crate (src/lib.rs).

The crate is a memory-layout engine for variable-length records: a record is
a fixed-size header `H` followed by a trailing footer array `[F]` whose
length is fixed at allocation.  We embed the layout arithmetic (Rust std
`Layout` operations as used by `DstData::layout_of`), the builder write
operations, the owned-value read accessors, the array indexing and drop
logic, slice splitting, the chunk iterator and array swap.

Conventions:
- machine addresses and sizes are `Nat` (the claims under study never hit
  address-space overflow);
- a Rust `assert!`/panic is modelled by an `Option` result: `none` is the
  bounds/length fault, `some x` the normal return;
- process abort (`handle_alloc_error`) is a dedicated constructor of
  `AllocOutcome`.
-/

namespace CustomDst

/-! ### Rust std `Layout` arithmetic, as used by `DstData::layout_of` -/

/-- Round `n` up to the next multiple of `a` (Rust `Layout` padding).  -/
def roundUp (n a : Nat) : Nat := (n + a - 1) / a * a

structure RustLayout where
  size : Nat
  align : Nat
deriving DecidableEq, Repr

/-- `Layout::array::<F>(count)`: element size is already a multiple of the
element alignment for Rust types, so the array size is `fS * count`. -/
def layout_array (fS fA count : Nat) : RustLayout := ⟨fS * count, fA⟩

/-- `Layout::extend`: place `l2` after `l1`, padding the offset up to
`l2.align`; the result's alignment is the max of the two. -/
def layout_extend (l1 l2 : RustLayout) : RustLayout × Nat :=
  let offset := roundUp l1.size l2.align
  (⟨offset + l2.size, max l1.align l2.align⟩, offset)

/-- `Layout::pad_to_align`: round the size up to the alignment. -/
def pad_to_align (l : RustLayout) : RustLayout := ⟨roundUp l.size l.align, l.align⟩

/-- `DstData::<H, F>::layout_of(count)` for a header of size `hS` /
alignment `hA` and footer elements of size `fS` / alignment `fA`:
`Layout::new::<H>().extend(Layout::array::<F>(count))` then `pad_to_align`. -/
def layout_of (hS hA fS fA count : Nat) : RustLayout :=
  pad_to_align (layout_extend ⟨hS, hA⟩ (layout_array fS fA count)).1

/-- The stride between consecutive records of an array
(`DstArray::get_stride`, `MaybeUninitDstArray::get_stride`):
the padded size of one record's layout. -/
def get_stride (hS hA fS fA footerLen : Nat) : Nat :=
  (layout_of hS hA fS fA footerLen).size

/-! ### Raw allocation (`DstData::alloc_self` / `alloc_self_array`)

`raw` is the address returned by the global allocator; `0` is the null
pointer, i.e. allocation failure. -/

inductive AllocOutcome where
  /-- `handle_alloc_error` was reached: the process aborts. -/
  | aborted : AllocOutcome
  /-- the address handed back to the caller. -/
  | returned : Nat → AllocOutcome
deriving DecidableEq, Repr

/-- `DstData::alloc_self`: if the allocator returned null the code calls
`handle_alloc_error(layout)` (process abort); otherwise the pointer is
returned (fattened with the footer count). -/
def alloc_self (raw : Nat) : AllocOutcome :=
  if raw = 0 then .aborted else .returned raw

/-- `DstData::alloc_self_array`: the result of `alloc(layout)` is turned
into a fat pointer and returned directly; there is no null check. -/
def alloc_self_array (raw : Nat) : AllocOutcome :=
  .returned raw

/-! ### `DstArray` indexing and drop -/

/-- `DstArray::get_arr_element` (the `get_mut_arr_element` body is
identical): `assert!(index < self.len)`, then the record at
`self.ptr.byte_add(stride * index)`. -/
def get_arr_element (stride base len i : Nat) : Option Nat :=
  if i < len then some (base + stride * i) else none

/-- `DstArray::get_mut_arr_element`: same check and address as
`get_arr_element`. -/
def get_mut_arr_element (stride base len i : Nat) : Option Nat :=
  if i < len then some (base + stride * i) else none

/-- `impl Index for DstArray`: computes `ptr = self.ptr.byte_add(stride *
index)` and asserts `ptr <= self.ptr.byte_add(stride * self.len)`. -/
def dstArray_index (stride base len i : Nat) : Option Nat :=
  if base + stride * i ≤ base + stride * len then some (base + stride * i) else none

/-- `impl IndexMut for DstArray`: identical computation and assert. -/
def dstArray_index_mut (stride base len i : Nat) : Option Nat :=
  if base + stride * i ≤ base + stride * len then some (base + stride * i) else none

/-- Byte offsets (from the array base) at which `impl Drop for DstArray`
runs `drop_in_place`: the cursor starts at `self.ptr.byte_add(stride)` and
advances by `stride` after each of the `len` drops, so iteration `i` drops
offset `stride * (i + 1)`. -/
def dstArrayDropOffsets (stride len : Nat) : List Nat :=
  (List.range len).map (fun i => stride * (i + 1))

/-- Modelled from the spec: the drop offsets the specification describes,
records `0` through `len - 1`, i.e. offsets `stride * i`. -/
def specDropOffsets (stride len : Nat) : List Nat :=
  (List.range len).map (fun i => stride * i)

/-! ### `DstSliceMut` and `split_at_mut` -/

/-- `DstSliceMut`: a borrowed view, `start` is the byte address of the
first record, `len` the number of records. -/
structure SliceModel where
  start : Nat
  len : Nat
deriving DecidableEq, Repr

/-- `SplitSliceExt::split_at_mut(len, mid)`: `assert!(mid <= len)`, then
the unchecked split: left is `(start, mid)`, right starts `stride * mid`
bytes later (stride = the record layout's padded size) with length
`len - mid`. -/
def split_at_mut (stride : Nat) (s : SliceModel) (mid : Nat) :
    Option (SliceModel × SliceModel) :=
  if mid ≤ s.len then
    some (⟨s.start, mid⟩, ⟨s.start + stride * mid, s.len - mid⟩)
  else none

/-- The byte range a slice addresses: `[start, start + stride * len)`. -/
def inRange (stride : Nat) (s : SliceModel) (a : Nat) : Prop :=
  s.start ≤ a ∧ a < s.start + stride * s.len

/-- What a successful split must give: lengths `mid` and `len - mid`, the
right half starting `stride * mid` bytes in, the two byte ranges disjoint,
and together covering the original range exactly. -/
def SplitGood (stride : Nat) (s : SliceModel) (mid : Nat) (l r : SliceModel) : Prop :=
  l.start = s.start ∧ l.len = mid ∧
  r.start = s.start + stride * mid ∧ r.len = s.len - mid ∧
  (∀ a, ¬ (inRange stride l a ∧ inRange stride r a)) ∧
  (∀ a, inRange stride s a ↔ (inRange stride l a ∨ inRange stride r a))

/-! ### Raw footer element pointers (`MaybeUninitDst`) -/

/-- `MaybeUninitDst::get_footer_element_ptr(index)`: takes the footer
slice's base pointer and does `.as_ptr().add(index)` — a pure address
computation, `footerBase + index * size_of::<F>()`.  The footer length is
in scope (the slice pointer carries it) but is never consulted: no bounds
check, no fault (`none` is never returned). -/
def get_footer_element_ptr (footerBase elemSize footerLen i : Nat) : Option Nat :=
  some (footerBase + i * elemSize)

/-- `MaybeUninitDst::get_footer_element_ptr_mut(index)`: identical address
computation via `.as_mut_ptr().add(index)`, again with no bounds check. -/
def get_footer_element_ptr_mut (footerBase elemSize footerLen i : Nat) : Option Nat :=
  some (footerBase + i * elemSize)

/-! ### `DstArray::swap` -/

/-- The owned handle `DstArray { len, ptr }`; `ptr` is the address of the
backing block. -/
structure DstArrayHandle where
  len : Nat
  ptr : Nat
deriving DecidableEq, Repr

/-- `DstArray::swap`: `mem::swap(&mut self.ptr, &mut arr.ptr)` then
`mem::swap(&mut self.len, &mut arr.len)` — the two handles exchange both
fields; nothing else (in particular no heap cell) is touched. -/
def dstArray_swap (a b : DstArrayHandle) : DstArrayHandle × DstArrayHandle :=
  (⟨b.len, b.ptr⟩, ⟨a.len, a.ptr⟩)

/-- Reading the record at index `i` of an array out of an (unchanged) byte
heap: all observations of an array go through `ptr + stride * i`. -/
def read_record (heap : Nat → Nat) (stride : Nat) (a : DstArrayHandle) (i : Nat) : Nat :=
  heap (a.ptr + stride * i)

/-! ### `MaybeUninitDst` builder writes and `Dst` reads

The backing cell of one record: an optionally-initialized header and,
per footer slot, an optionally-initialized element.  `none` is memory
that has not been written yet; the footer length is the list's length
(it is fixed at allocation and no operation changes it). -/

structure MaybeUninitDstS (H F : Type) where
  header : Option H
  footer : List (Option F)
deriving DecidableEq, Repr

/-- The initialized handle produced by `assume_init`; same backing cell. -/
structure DstS (H F : Type) where
  header : Option H
  footer : List (Option F)
deriving DecidableEq, Repr

variable {H F : Type}

/-- `MaybeUninitDst::get_footer_len`: the footer slice's length (read off
the fat pointer's metadata). -/
def mu_get_footer_len (s : MaybeUninitDstS H F) : Nat := s.footer.length

/-- `MaybeUninitDst::write_header(header)`: writes the header position;
the previous content is overwritten without being read or dropped. -/
def write_header (s : MaybeUninitDstS H F) (h : H) : MaybeUninitDstS H F :=
  { s with header := some h }

/-- `MaybeUninitDst::write_footer(footer)`:
`assert!(footer.len() == footer_len)`, then `copy_nonoverlapping` of all
elements in index order. -/
def write_footer (s : MaybeUninitDstS H F) (f : List F) : Option (MaybeUninitDstS H F) :=
  if f.length = s.footer.length then some { s with footer := f.map some } else none

/-- `MaybeUninitDst::write_footer_element(index, element)`:
`assert!(index < footer_len)`, then a single write at slot `index`. -/
def write_footer_element (s : MaybeUninitDstS H F) (i : Nat) (e : F) :
    Option (MaybeUninitDstS H F) :=
  if i < s.footer.length then some { s with footer := s.footer.set i (some e) } else none

/-- `MaybeUninitDst::assume_init`: reinterpret the same cell as
initialized (the pointer is just moved into the `Dst` handle). -/
def assume_init (s : MaybeUninitDstS H F) : DstS H F := ⟨s.header, s.footer⟩

/-- Collects a fully-initialized footer; `none` as soon as any slot is
still uninitialized (reading it would be undefined behavior). -/
def allSome : List (Option F) → Option (List F)
  | [] => some []
  | none :: _ => none
  | some x :: xs =>
    match allSome xs with
    | none => none
    | some l => some (x :: l)

/-- `Dst::get_header_ref`: reads the header (defined only once written). -/
def dst_get_header_ref (d : DstS H F) : Option H := d.header

/-- `Dst::get_footer_ref`: reads the whole footer slice (defined only
once every element has been written). -/
def dst_get_footer_ref (d : DstS H F) : Option (List F) := allSome d.footer

/-! ### `DstChunksMut` (the chunk iterator)

The iterator's state, as far as lengths are concerned, is the remaining
slice length; `chunk_size` is fixed at construction (`DstChunksMut::new`
stores it unchanged, with no check). -/

/-- `DstChunksMut::next` on remaining length `rem`: `None` when `rem = 0`;
otherwise `chunksz = min(rem, chunk_size)`, one `split_at_mut(rem,
chunksz)` (the assert `chunksz <= rem` always passes), yielding the chunk
of length `chunksz` and the new remaining length `rem - chunksz`. -/
def chunkNext (chunkSize rem : Nat) : Option (Nat × Nat) :=
  if rem = 0 then none
  else some (min rem chunkSize, rem - min rem chunkSize)

/-- The remaining length after one call to `next` (unchanged when `next`
returned `None`, since the empty slice is kept). -/
def stepRem (chunkSize rem : Nat) : Nat :=
  match chunkNext chunkSize rem with
  | none => rem
  | some (_, r) => r

/-- The remaining length after `k` calls to `next`. -/
def remAfter (chunkSize L : Nat) : Nat → Nat
  | 0 => L
  | k + 1 => stepRem chunkSize (remAfter chunkSize L k)

/-- Run the iterator for at most `fuel` calls to `next`, collecting the
produced chunk lengths and the final remaining length; stops early as
soon as `next` returns `None`. -/
def runChunks (chunkSize : Nat) : Nat → Nat → List Nat × Nat
  | 0, rem => ([], rem)
  | fuel + 1, rem =>
    match chunkNext chunkSize rem with
    | none => ([], rem)
    | some (c, r) =>
      let p := runChunks chunkSize fuel r
      (c :: p.1, p.2)

/-- Closed form of the chunk lengths produced from remaining length
`rem` with chunk size `c`: `rem / c` full chunks and, when `c` does not
divide `rem`, one final shorter chunk of length `rem % c`. -/
def chunksOf (c rem : Nat) : List Nat :=
  List.replicate (rem / c) c ++ (if rem % c = 0 then [] else [rem % c])

end CustomDst

namespace CustomDst

theorem allSome_map_some {F : Type} (f : List F) : allSome (f.map some) = some f := by
  induction f with
  | nil => rfl
  | cons x xs ih => simp [allSome, ih]

theorem chunksOf_zero (c : Nat) : chunksOf c 0 = [] := by
  simp [chunksOf]

theorem chunksOf_cons (c rem : Nat) (hc : 1 ≤ c) (hrem : 1 ≤ rem) :
    chunksOf c rem = min rem c :: chunksOf c (rem - min rem c) := by
  rcases Nat.lt_or_ge rem c with hlt | hge
  · have hmin : min rem c = rem := Nat.min_eq_left (Nat.le_of_lt hlt)
    rw [hmin, Nat.sub_self, chunksOf_zero]
    unfold chunksOf
    rw [Nat.div_eq_of_lt hlt, Nat.mod_eq_of_lt hlt]
    simp [Nat.pos_iff_ne_zero.mp hrem]
  · have hmin : min rem c = c := Nat.min_eq_right hge
    have h1 : rem - c + c = rem := Nat.sub_add_cancel hge
    have hdiv : rem / c = (rem - c) / c + 1 := by
      conv_lhs => rw [← h1]
      exact Nat.add_div_right _ hc
    have hmod : rem % c = (rem - c) % c := by
      conv_lhs => rw [← h1]
      exact Nat.add_mod_right _ _
    rw [hmin]
    unfold chunksOf
    rw [hdiv, hmod, List.replicate_succ]
    rfl

theorem runChunks_eq (c : Nat) (hc : 1 ≤ c) :
    ∀ fuel rem, rem ≤ fuel → runChunks c fuel rem = (chunksOf c rem, 0) := by
  intro fuel
  induction fuel with
  | zero =>
    intro rem hrem
    have h0 : rem = 0 := Nat.le_zero.mp hrem
    subst h0
    simp [runChunks, chunksOf_zero]
  | succ fuel ih =>
    intro rem hrem
    by_cases h0 : rem = 0
    · subst h0
      simp [runChunks, chunkNext, chunksOf_zero]
    · have h1 : 1 ≤ rem := Nat.pos_of_ne_zero h0
      have hnext : chunkNext c rem = some (min rem c, rem - min rem c) := by
        unfold chunkNext
        rw [if_neg h0]
      have hminpos : 1 ≤ min rem c := le_min h1 hc
      have hle : rem - min rem c ≤ fuel := by omega
      simp only [runChunks, hnext]
      rw [ih _ hle, chunksOf_cons c rem hc h1]

/-- C1: for `DstArray<u32, u8>` with footer length 2 the stride is 8, and
the drop glue of a length-1 array runs `drop_in_place` at byte offset 8 —
one past the end of the only record — instead of at offset 0 where record 0
lives, so the destructor of record 0 never runs and an out-of-range record
is dropped.  The offsets the code visits differ from the spec's offsets. -/
theorem c1_drop_skips_record_zero :
    get_stride 4 4 1 1 2 = 8 ∧
    dstArrayDropOffsets 8 1 = [8] ∧
    specDropOffsets 8 1 = [0] ∧
    dstArrayDropOffsets 8 1 ≠ specDropOffsets 8 1 := by
  refine ⟨rfl, rfl, rfl, ?_⟩
  decide

/-- C2: with stride 8 and array length 1, indexing at `i = 1` (= the
length) passes the `Index`/`IndexMut` bounds assert (`ptr <= end`) and
returns the one-past-the-end record at offset 8 instead of faulting, while
`get_arr_element`/`get_mut_arr_element` correctly fault at the same index. -/
theorem c2_index_accepts_len :
    dstArray_index 8 0 1 1 = some 8 ∧
    dstArray_index_mut 8 0 1 1 = some 8 ∧
    get_arr_element 8 0 1 1 = none ∧
    get_mut_arr_element 8 0 1 1 = none := by
  decide

/-- C3: when the allocator returns null, the single-record path
(`alloc_self`) aborts the process, but the array path (`alloc_self_array`)
performs no null check and hands the null pointer back to the caller. -/
theorem c3_array_alloc_returns_null :
    alloc_self 0 = .aborted ∧
    alloc_self_array 0 = .returned 0 ∧
    alloc_self_array 0 ≠ .aborted := by
  decide

/-- C5: `split_at_mut(mid)` faults exactly when `mid > len`; when it
succeeds the two slices have lengths `mid` and `len - mid`, the right one
starts `stride * mid` bytes after the left one's start, and their byte
ranges are disjoint and cover the original slice's range exactly. -/
theorem c5_split_at_mut_spec (stride : Nat) (s : SliceModel) (mid : Nat) :
    (split_at_mut stride s mid = none ↔ s.len < mid) ∧
    (∀ l r, split_at_mut stride s mid = some (l, r) → SplitGood stride s mid l r) := by
  constructor
  · unfold split_at_mut
    split
    · simp only [reduceCtorEq, false_iff]
      omega
    · simp only [true_iff]
      omega
  · intro l r hsome
    unfold split_at_mut at hsome
    split at hsome
    case isTrue hmid =>
      simp only [Option.some.injEq, Prod.mk.injEq] at hsome
      obtain ⟨hl, hr⟩ := hsome
      subst hl
      subst hr
      have key : stride * mid + stride * (s.len - mid) = stride * s.len := by
        rw [← Nat.mul_add, Nat.add_sub_cancel' hmid]
      refine ⟨rfl, rfl, rfl, rfl, ?_, ?_⟩
      · intro a
        unfold inRange
        simp only
        omega
      · intro a
        unfold inRange
        simp only
        omega
    case isFalse => exact absurd hsome (by simp)

/-- C5 witness: splitting the 3-record slice at byte address 100 with
stride 4 at `mid = 1` succeeds and satisfies the full split contract. -/
theorem c5_split_at_mut_spec_witness :
    split_at_mut 4 ⟨100, 3⟩ 1 = some (⟨100, 1⟩, ⟨104, 2⟩) ∧
    SplitGood 4 ⟨100, 3⟩ 1 ⟨100, 1⟩ ⟨104, 2⟩ :=
  ⟨by decide, (c5_split_at_mut_spec 4 ⟨100, 3⟩ 1).2 ⟨100, 1⟩ ⟨104, 2⟩ (by decide)⟩

/-- C8: `swap` exchanges the two handles wholesale: the first result is
exactly the old `b` and the second exactly the old `a`, so every
observation of the swapped arrays (length, any heap read of any record —
whatever the two arrays' strides or lengths) equals the same observation
of the other original array, the backing pointers are exchanged rather
than duplicated, and the heap is untouched (no copy, no destructor). -/
theorem c8_swap_exchanges (a b : DstArrayHandle) :
    dstArray_swap a b = (b, a) ∧
    (dstArray_swap a b).1.ptr = b.ptr ∧ (dstArray_swap a b).2.ptr = a.ptr ∧
    (dstArray_swap a b).1.len = b.len ∧ (dstArray_swap a b).2.len = a.len ∧
    (∀ (heap : Nat → Nat) (stride i : Nat),
      read_record heap stride (dstArray_swap a b).1 i = read_record heap stride b i ∧
      read_record heap stride (dstArray_swap a b).2 i = read_record heap stride a i) :=
  ⟨rfl, rfl, rfl, rfl, rfl, fun _ _ _ => ⟨rfl, rfl⟩⟩

/-- C9: the raw footer-element accessors are pure address arithmetic: for
every index `i` — in particular every `i ≥ footerLen` — both return
`footerBase + i * elemSize` and never fault (never return `none`). -/
theorem c9_footer_element_ptr_unchecked (footerBase elemSize footerLen i : Nat) :
    get_footer_element_ptr footerBase elemSize footerLen i
      = some (footerBase + i * elemSize) ∧
    get_footer_element_ptr_mut footerBase elemSize footerLen i
      = some (footerBase + i * elemSize) ∧
    get_footer_element_ptr footerBase elemSize footerLen i ≠ none ∧
    get_footer_element_ptr_mut footerBase elemSize footerLen i ≠ none :=
  ⟨rfl, rfl, by simp [get_footer_element_ptr], by simp [get_footer_element_ptr_mut]⟩

/-- C6: writing a header `h` and then a footer sequence `f` whose length
matches the builder's footer length succeeds, and reading both back
through the initialized handle's accessors yields exactly `h` and exactly
`f`; a footer sequence of any other length faults (length mismatch). -/
theorem c6_header_footer_roundtrip {H F : Type} (s : MaybeUninitDstS H F)
    (h : H) (f : List F) :
    (f.length = mu_get_footer_len s →
      ∃ s2, write_footer (write_header s h) f = some s2 ∧
        dst_get_header_ref (assume_init s2) = some h ∧
        dst_get_footer_ref (assume_init s2) = some f) ∧
    (f.length ≠ mu_get_footer_len s →
      write_footer (write_header s h) f = none) := by
  constructor
  · intro hlen
    unfold mu_get_footer_len at hlen
    refine ⟨⟨some h, f.map some⟩, ?_, rfl, ?_⟩
    · simp [write_footer, write_header, hlen]
    · exact allSome_map_some f
  · intro hlen
    unfold mu_get_footer_len at hlen
    simp [write_footer, write_header, hlen]

/-- C6 witness: on a fresh 2-slot builder over `H = F = Nat`, writing
header 7 and footer `[1, 2]` round-trips, and writing the length-3 footer
`[1, 2, 3]` faults. -/
theorem c6_header_footer_roundtrip_witness :
    (∃ s2, write_footer (write_header (⟨none, [none, none]⟩ : MaybeUninitDstS Nat Nat) 7)
        [1, 2] = some s2 ∧
      dst_get_header_ref (assume_init s2) = some 7 ∧
      dst_get_footer_ref (assume_init s2) = some [1, 2]) ∧
    write_footer (write_header (⟨none, [none, none]⟩ : MaybeUninitDstS Nat Nat) 7)
        [1, 2, 3] = none :=
  ⟨(c6_header_footer_roundtrip ⟨none, [none, none]⟩ 7 [1, 2]).1 (by decide),
   (c6_header_footer_roundtrip ⟨none, [none, none]⟩ 7 [1, 2, 3]).2 (by decide)⟩

/-- C7: `write_footer_element(i, e)` faults exactly when `i ≥ footer_len`;
for `i < footer_len` it succeeds, leaves the footer length and every other
slot unchanged, and slot `i` afterwards holds exactly `e` (so reading
element `i` yields `e`). -/
theorem c7_write_footer_element_spec {H F : Type} (s : MaybeUninitDstS H F)
    (i : Nat) (e : F) :
    (i < mu_get_footer_len s →
      ∃ s2, write_footer_element s i e = some s2 ∧
        s2.header = s.header ∧
        mu_get_footer_len s2 = mu_get_footer_len s ∧
        s2.footer[i]? = some (some e) ∧
        (∀ j, j ≠ i → s2.footer[j]? = s.footer[j]?)) ∧
    (mu_get_footer_len s ≤ i → write_footer_element s i e = none) := by
  constructor
  · intro hi
    unfold mu_get_footer_len at hi
    refine ⟨⟨s.header, s.footer.set i (some e)⟩, ?_, rfl, ?_, ?_, ?_⟩
    · unfold write_footer_element
      rw [if_pos hi]
    · unfold mu_get_footer_len
      simp
    · exact List.getElem?_set_eq_of_lt (some e) hi
    · intro j hj
      exact List.getElem?_set_ne (Ne.symm hj)
  · intro hi
    unfold mu_get_footer_len at hi
    unfold write_footer_element
    rw [if_neg (by omega)]

/-- C7 witness: on a fresh 2-slot builder over `H = F = Nat`, writing
element 9 at index 1 succeeds with slot 1 holding 9 and slot 0 untouched,
and writing at index 5 faults. -/
theorem c7_write_footer_element_spec_witness :
    (∃ s2, write_footer_element (⟨none, [none, none]⟩ : MaybeUninitDstS Nat Nat) 1 9
        = some s2 ∧
      s2.header = (⟨none, [none, none]⟩ : MaybeUninitDstS Nat Nat).header ∧
      mu_get_footer_len s2
        = mu_get_footer_len (⟨none, [none, none]⟩ : MaybeUninitDstS Nat Nat) ∧
      s2.footer[1]? = some (some 9) ∧
      (∀ j, j ≠ 1 → s2.footer[j]?
        = (⟨none, [none, none]⟩ : MaybeUninitDstS Nat Nat).footer[j]?)) ∧
    write_footer_element (⟨none, [none, none]⟩ : MaybeUninitDstS Nat Nat) 5 9 = none :=
  ⟨(c7_write_footer_element_spec ⟨none, [none, none]⟩ 1 9).1 (by decide),
   (c7_write_footer_element_spec ⟨none, [none, none]⟩ 5 9).2 (by decide)⟩

/-- C4 (amended: chunk size at least 1): iterating `DstChunksMut` over a
length-`L` slice with chunk size `c ≥ 1` produces chunks summing exactly
to `L`, in number `ceil(L/c) = (L + c - 1) / c`; every chunk but the last
has length `c` and every chunk (in particular the last) has length at
most `c`; after the run the remainder is 0 and `next` returns `None`.
`L` calls of fuel suffice, so the sequence is finite. -/
theorem c4_chunk_iteration_amended (c L : Nat) (hc : 1 ≤ c) :
    (runChunks c L L).1.sum = L ∧
    (runChunks c L L).1.length = (L + c - 1) / c ∧
    (∀ x ∈ (runChunks c L L).1.dropLast, x = c) ∧
    (∀ x ∈ (runChunks c L L).1, x ≤ c) ∧
    (runChunks c L L).2 = 0 ∧
    chunkNext c (runChunks c L L).2 = none := by
  rw [runChunks_eq c hc L L (Nat.le_refl L)]
  refine ⟨?_, ?_, ?_, ?_, rfl, by simp [chunkNext]⟩
  · by_cases hr : L % c = 0 <;>
      [skip; skip] <;>
      · simp [chunksOf, hr, List.sum_replicate, smul_eq_mul]
        have := Nat.div_add_mod' L c
        omega
  · by_cases hr : L % c = 0
    · have hq := Nat.div_add_mod L c
      rw [hr, Nat.add_zero] at hq
      have h2 : L + c - 1 = c * (L / c) + (c - 1) := by omega
      have h3 : (c - 1) / c = 0 := Nat.div_eq_of_lt (by omega)
      have hceil : (L + c - 1) / c = L / c := by
        rw [h2, Nat.mul_add_div hc, h3, Nat.add_zero]
      rw [hceil]
      simp [chunksOf, hr]
    · have hq := Nat.div_add_mod L c
      have hrlt : L % c < c := Nat.mod_lt L hc
      have hr1 : 1 ≤ L % c := Nat.pos_of_ne_zero hr
      have hmul : c * (L / c + 1) = c * (L / c) + c := Nat.mul_succ c (L / c)
      have h2 : L + c - 1 = c * (L / c + 1) + (L % c - 1) := by omega
      have h3 : (L % c - 1) / c = 0 := Nat.div_eq_of_lt (by omega)
      have hceil : (L + c - 1) / c = L / c + 1 := by
        rw [h2, Nat.mul_add_div hc, h3, Nat.add_zero]
      rw [hceil]
      simp [chunksOf, hr]
  · intro x hx
    by_cases hr : L % c = 0
    · simp [chunksOf, hr] at hx
      exact hx.2
    · simp [chunksOf, hr, List.dropLast_concat] at hx
      exact hx.2
  · intro x hx
    unfold chunksOf at hx
    rcases List.mem_append.mp hx with h | h
    · exact Nat.le_of_eq (List.eq_of_mem_replicate h)
    · by_cases hr : L % c = 0
      · rw [if_pos hr] at h
        simp at h
      · rw [if_neg hr] at h
        have hx2 : x = L % c := List.eq_of_mem_singleton h
        rw [hx2]
        exact Nat.le_of_lt (Nat.mod_lt L hc)

/-- C4 counterexample: the claim quantifies over every chunk size, but
with chunk size 0 on a slice of length 1 the iterator never returns
`None`: the remainder never becomes empty, so the sequence is not
finite. -/
theorem c4_zero_chunk_size_never_none :
    ¬ ∃ k, chunkNext 0 (remAfter 0 1 k) = none := by
  have hstate : ∀ k, remAfter 0 1 k = 1 := by
    intro k
    induction k with
    | zero => rfl
    | succ k ih => simp [remAfter, stepRem, chunkNext, ih]
  rintro ⟨k, hk⟩
  rw [hstate k] at hk
  simp [chunkNext] at hk

/-- C4 witness: chunk size 2 over a length-5 slice: sum 5, three chunks,
all but the last of length 2, remainder 0, then `None`. -/
theorem c4_chunk_iteration_amended_witness :
    (runChunks 2 5 5).1.sum = 5 ∧
    (runChunks 2 5 5).1.length = (5 + 2 - 1) / 2 ∧
    (∀ x ∈ (runChunks 2 5 5).1.dropLast, x = 2) ∧
    (∀ x ∈ (runChunks 2 5 5).1, x ≤ 2) ∧
    (runChunks 2 5 5).2 = 0 ∧
    chunkNext 2 (runChunks 2 5 5).2 = none :=
  c4_chunk_iteration_amended 2 5 (by decide)

/-- C10: with chunk size 0 and a non-empty slice of length `L`, after any
number of calls the remaining length is still `L` and the next call
returns `Some` chunk of length 0 with the remainder unchanged — so the
iterator never returns `None`. -/
theorem c10_zero_chunk_size_loops (L : Nat) (hL : 0 < L) (k : Nat) :
    remAfter 0 L k = L ∧ chunkNext 0 (remAfter 0 L k) = some (0, L) := by
  have hne : L ≠ 0 := Nat.pos_iff_ne_zero.mp hL
  have hnext : chunkNext 0 L = some (0, L) := by
    simp [chunkNext, hne]
  have hstate : ∀ j, remAfter 0 L j = L := by
    intro j
    induction j with
    | zero => rfl
    | succ j ih => simp [remAfter, stepRem, ih, hnext]
  refine ⟨hstate k, ?_⟩
  rw [hstate k]
  exact hnext

/-- C10 witness: length 2, chunk size 0: after 3 calls the remainder is
still 2 and the next call returns the empty chunk again. -/
theorem c10_zero_chunk_size_loops_witness :
    0 < 2 ∧ (remAfter 0 2 3 = 2 ∧ chunkNext 0 (remAfter 0 2 3) = some (0, 2)) :=
  ⟨by decide, c10_zero_chunk_size_loops 2 (by decide) 3⟩

end CustomDst
